import Mathlib

/-!
Verification of the text-editing core of the OnlyMoji emoji-keyboard screen
(`src/app/app/main/TestScreen.tsx`).

A JavaScript string is a sequence of UTF-16 code units; we model it as
`List Nat` (each element one code unit).  `String.prototype.slice` index
handling, the codepoint iteration performed by `Array.from` on a string,
and `codePointAt(0)` are embedded faithfully below, followed by the three
pure functions of the source (`insertAt`, `deleteOneGrapheme`,
`filterNonEmoji`) and the caret computation of `handleInsert`.
-/

namespace OnlyMoji

/-- A UTF-16 high surrogate, `0xD800 ≤ c ≤ 0xDBFF`. -/
def isHighSurrogate (c : Nat) : Bool :=
  decide (0xD800 ≤ c) && decide (c ≤ 0xDBFF)

/-- A UTF-16 low surrogate, `0xDC00 ≤ c ≤ 0xDFFF`. -/
def isLowSurrogate (c : Nat) : Bool :=
  decide (0xDC00 ≤ c) && decide (c ≤ 0xDFFF)

/-- The codepoint iteration that `Array.from(string)` performs: the string is
split into codepoints, a well-formed surrogate pair forming one element of
two code units, any other code unit (including a lone surrogate) forming a
one-unit element.  Each element is kept as its list of code units, exactly
as `Array.from` keeps each codepoint as a string. -/
def codePointUnits : List Nat → List (List Nat)
  | [] => []
  | [c] => [[c]]
  | c :: c2 :: rest =>
    if isHighSurrogate c && isLowSurrogate c2 then
      [c, c2] :: codePointUnits rest
    else
      [c] :: codePointUnits (c2 :: rest)

/-- Embeds `s.codePointAt(0) ?? 0` for a string `s` given as its code units:
a leading well-formed surrogate pair is combined, otherwise the first code
unit is returned; the empty string gives `0` (via `?? 0`). -/
def codePointVal : List Nat → Nat
  | [] => 0
  | [c] => c
  | c :: c2 :: _ =>
    if isHighSurrogate c && isLowSurrogate c2 then
      0x10000 + (c - 0xD800) * 0x400 + (c2 - 0xDC00)
    else c

/-- JavaScript `slice` index resolution: a negative index counts from the
end (floored at 0), a non-negative index is capped at the length. -/
def jsIdx (len : Nat) (i : Int) : Nat :=
  if i < 0 then ((len : Int) + i).toNat else min i.toNat len

/-- Embeds `s.slice(start, stop)` on a JS string `s`. -/
def jsSlice (s : List Nat) (start stop : Int) : List Nat :=
  (s.take (jsIdx s.length stop)).drop (jsIdx s.length start)

/-- Embeds `s.slice(start)` on a JS string `s`. -/
def jsSliceFrom (s : List Nat) (start : Int) : List Nat :=
  s.drop (jsIdx s.length start)

/-- The function `insertAt` from TestScreen.tsx:
`input.slice(0, start) + insert + input.slice(end)`. -/
def insertAt (input ins : List Nat) (start stop : Int) : List Nat :=
  jsSlice input 0 start ++ ins ++ jsSliceFrom input stop

/-- The record returned by `deleteOneGrapheme`. -/
structure DeleteResult where
  nextText : List Nat
  nextCursor : Int
  deriving DecidableEq

/-- The function `deleteOneGrapheme` from TestScreen.tsx.  With a range selected it
removes the range; at the start of the buffer it is a no-op; otherwise it
splits the left part into codepoints with `Array.from`, pops the last one,
and returns the rejoined text with the cursor at the UTF-16 length of the
rejoined left part. -/
def deleteOneGrapheme (input : List Nat) (cursorStart cursorEnd : Int) :
    DeleteResult :=
  if cursorStart ≠ cursorEnd then
    { nextText := jsSlice input 0 cursorStart ++ jsSliceFrom input cursorEnd
      nextCursor := cursorStart }
  else if cursorStart ≤ 0 then
    { nextText := input, nextCursor := cursorStart }
  else
    let left := jsSlice input 0 cursorStart
    let right := jsSliceFrom input cursorStart
    let units := (codePointUnits left).dropLast
    { nextText := units.flatten ++ right
      nextCursor := (units.flatten.length : Int) }

/-- The `isAsciiLetterOrDigit` test inside `filterNonEmoji`. -/
def isAsciiLetterOrDigit (code : Nat) : Bool :=
  (decide (48 ≤ code) && decide (code ≤ 57)) ||
  (decide (65 ≤ code) && decide (code ≤ 90)) ||
  (decide (97 ≤ code) && decide (code ≤ 122))

/-- The `isHangul` test inside `filterNonEmoji`. -/
def isHangul (code : Nat) : Bool :=
  (decide (0xAC00 ≤ code) && decide (code ≤ 0xD7A3)) ||
  (decide (0x1100 ≤ code) && decide (code ≤ 0x11FF))

/-- The function `filterNonEmoji` from TestScreen.tsx: split the text into codepoints
with `Array.from`, keep a codepoint unless it is an ASCII letter/digit or
Hangul, and rejoin the survivors. -/
def filterNonEmoji (text : List Nat) : List Nat :=
  ((codePointUnits text).filter fun ch =>
    !(isAsciiLetterOrDigit (codePointVal ch) || isHangul (codePointVal ch))).flatten

/-- The caret computed by `handleInsert` in TestScreen.tsx:
`selection.start + Array.from(emoji).length`. -/
def handleInsertCursor (start : Int) (emoji : List Nat) : Int :=
  start + ((codePointUnits emoji).length : Int)

/-! ### Basic facts about the slice-index arithmetic -/

theorem jsIdx_zero (len : Nat) : jsIdx len 0 = 0 := by
  simp [jsIdx]

theorem jsIdx_coe_of_le (len n : Nat) (h : n ≤ len) :
    jsIdx len (n : Int) = n := by
  simp [jsIdx, h]

theorem jsSlice_zero_coe (s : List Nat) (n : Nat) (h : n ≤ s.length) :
    jsSlice s 0 (n : Int) = s.take n := by
  simp [jsSlice, jsIdx_zero, jsIdx_coe_of_le s.length n h]

theorem jsSliceFrom_coe (s : List Nat) (n : Nat) (h : n ≤ s.length) :
    jsSliceFrom s (n : Int) = s.drop n := by
  simp [jsSliceFrom, jsIdx_coe_of_le s.length n h]

/-! ### Basic facts about the codepoint decomposition -/

theorem flatten_codePointUnits (s : List Nat) :
    (codePointUnits s).flatten = s := by
  induction s using codePointUnits.induct with
  | case1 => simp [codePointUnits]
  | case2 c => simp [codePointUnits]
  | case3 c c2 rest h ih => simp [codePointUnits, h, ih]
  | case4 c c2 rest h ih => simp [codePointUnits, h, ih]

theorem codePointUnits_ne_nil (s : List Nat) (h : s ≠ []) :
    codePointUnits s ≠ [] := by
  match s with
  | [] => exact absurd rfl h
  | [c] => simp [codePointUnits]
  | c :: c2 :: rest =>
    rw [codePointUnits]
    split <;> simp

theorem codePointUnits_length_le (s : List Nat) :
    (codePointUnits s).length ≤ s.length := by
  induction s using codePointUnits.induct with
  | case1 => simp [codePointUnits]
  | case2 c => simp [codePointUnits]
  | case3 c c2 rest h ih =>
    rw [codePointUnits, if_pos h]
    simp only [List.length_cons]
    omega
  | case4 c c2 rest h ih =>
    rw [codePointUnits, if_neg (by simpa using h)]
    simp only [List.length_cons] at *
    omega

/-! ### Round-trip: re-splitting a well-formed decomposition

The decomposition produced by `codePointUnits` has a shape invariant: every
element is a single code unit or a well-formed surrogate pair, and a
lone-unit element that is a high surrogate is never immediately followed by
a low surrogate in the flattened remainder (otherwise `codePointUnits`
would have paired them).  Any list with this invariant re-splits to itself.
-/

/-- Shape invariant of `codePointUnits` output. -/
inductive Chunks : List (List Nat) → Prop
  | nil : Chunks []
  | single (c : Nat) (L : List (List Nat)) (hL : Chunks L)
      (hnext : ∀ d, L.flatten.head? = some d →
        (isHighSurrogate c && isLowSurrogate d) = false) :
      Chunks ([c] :: L)
  | pair (c d : Nat) (L : List (List Nat))
      (hcd : (isHighSurrogate c && isLowSurrogate d) = true) (hL : Chunks L) :
      Chunks ([c, d] :: L)

theorem Chunks.eq_nil_of_flatten_eq_nil {L : List (List Nat)} (h : Chunks L)
    (hf : L.flatten = []) : L = [] := by
  cases h with
  | nil => rfl
  | single c L hL hnext => simp at hf
  | pair c d L hcd hL => simp at hf

theorem codePointUnits_flatten_of_chunks {L : List (List Nat)} (h : Chunks L) :
    codePointUnits L.flatten = L := by
  induction h with
  | nil => simp [codePointUnits]
  | single c L hL hnext ih =>
    rw [List.flatten_cons]
    rcases hE : L.flatten with _ | ⟨d, X⟩
    · have hL0 : L = [] := hL.eq_nil_of_flatten_eq_nil hE
      subst hL0
      simp [codePointUnits]
    · have hcd : (isHighSurrogate c && isLowSurrogate d) = false :=
        hnext d (by rw [hE]; rfl)
      have : ([c] : List Nat) ++ d :: X = c :: d :: X := rfl
      rw [this, codePointUnits, if_neg (by simp [hcd])]
      rw [← hE, ih]
  | pair c d L hcd hL ih =>
    rw [List.flatten_cons]
    have : ([c, d] : List Nat) ++ L.flatten = c :: d :: L.flatten := rfl
    rw [this, codePointUnits, if_pos hcd, ih]

theorem chunks_codePointUnits (s : List Nat) : Chunks (codePointUnits s) := by
  induction s using codePointUnits.induct with
  | case1 => exact Chunks.nil
  | case2 c =>
    exact Chunks.single c [] Chunks.nil (by intro d hd; simp at hd)
  | case3 c c2 rest h ih =>
    rw [codePointUnits, if_pos h]
    exact Chunks.pair c c2 _ h ih
  | case4 c c2 rest h ih =>
    rw [codePointUnits, if_neg (by simpa using h)]
    refine Chunks.single c _ ih ?_
    intro d hd
    rw [flatten_codePointUnits] at hd
    simp only [List.head?_cons, Option.some.injEq] at hd
    subst hd
    simpa using h

theorem head?_flatten_dropLast : ∀ (L : List (List Nat)) (d : Nat),
    L.dropLast.flatten.head? = some d → L.flatten.head? = some d
  | [], d, h => by simp at h
  | [x], d, h => by simp at h
  | x :: y :: L', d, h => by
    have hdl : (x :: y :: L').dropLast = x :: (y :: L').dropLast := rfl
    rw [hdl, List.flatten_cons] at h
    rw [List.flatten_cons]
    cases x with
    | nil =>
      simp only [List.nil_append] at h ⊢
      exact head?_flatten_dropLast (y :: L') d h
    | cons a t =>
      simpa using h

theorem Chunks.dropLast {L : List (List Nat)} (h : Chunks L) :
    Chunks L.dropLast := by
  induction h with
  | nil => exact Chunks.nil
  | single c L hL hnext ih =>
    cases L with
    | nil => exact Chunks.nil
    | cons x L' =>
      have hdl : ([c] :: x :: L').dropLast = [c] :: (x :: L').dropLast := rfl
      rw [hdl]
      refine Chunks.single c _ ih ?_
      intro d hd
      exact hnext d (head?_flatten_dropLast (x :: L') d hd)
  | pair c d L hcd hL ih =>
    cases L with
    | nil => exact Chunks.nil
    | cons x L' =>
      have hdl : ([c, d] :: x :: L').dropLast = [c, d] :: (x :: L').dropLast :=
        rfl
      rw [hdl]
      exact Chunks.pair c d _ hcd ih

theorem codePointUnits_dropLast_flatten (s : List Nat) :
    codePointUnits (codePointUnits s).dropLast.flatten =
      (codePointUnits s).dropLast :=
  codePointUnits_flatten_of_chunks (chunks_codePointUnits s).dropLast

/-! ### Computation lemmas for `deleteOneGrapheme` -/

theorem deleteOneGrapheme_of_lt (T : List Nat) (s e : Nat) (hse : s < e)
    (hel : e ≤ T.length) :
    deleteOneGrapheme T (s : Int) (e : Int) =
      ⟨T.take s ++ T.drop e, (s : Int)⟩ := by
  unfold deleteOneGrapheme
  rw [if_pos (by exact_mod_cast Nat.ne_of_lt hse)]
  rw [jsSlice_zero_coe T s (Nat.le_of_lt (Nat.lt_of_lt_of_le hse hel)),
    jsSliceFrom_coe T e hel]

theorem deleteOneGrapheme_zero (T : List Nat) :
    deleteOneGrapheme T 0 0 = ⟨T, 0⟩ := by
  simp [deleteOneGrapheme]

theorem deleteOneGrapheme_of_pos (T : List Nat) (c : Nat) (h0 : 0 < c)
    (hl : c ≤ T.length) :
    deleteOneGrapheme T (c : Int) (c : Int) =
      ⟨(codePointUnits (T.take c)).dropLast.flatten ++ T.drop c,
        ((codePointUnits (T.take c)).dropLast.flatten.length : Int)⟩ := by
  unfold deleteOneGrapheme
  rw [if_neg (by simp), if_neg (by exact_mod_cast Nat.not_le.mpr h0)]
  simp only [jsSlice_zero_coe T c hl, jsSliceFrom_coe T c hl]

theorem insertAt_eq_splice (input frag : List Nat) (s e : Nat)
    (hsl : s ≤ input.length) (hel : e ≤ input.length) :
    insertAt input frag (s : Int) (e : Int) =
      input.take s ++ frag ++ input.drop e := by
  unfold insertAt
  rw [jsSlice_zero_coe input s hsl, jsSliceFrom_coe input e hel]

theorem jsIdx_min (len : Nat) (i : Int) (h : 0 ≤ i) :
    jsIdx len (min i (len : Int)) = jsIdx len i := by
  unfold jsIdx
  rw [if_neg (by omega), if_neg (by omega)]
  omega

/-! ### Claim theorems -/

/-- C1: for `0 ≤ start ≤ end ≤ length text` in code units,
`insertAt text fragment start end` returns exactly
`text[0:start] ++ fragment ++ text[end:]`. -/
theorem insertAt_returns_splice (input frag : List Nat) (s e : Nat)
    (hse : s ≤ e) (hel : e ≤ input.length) :
    insertAt input frag (s : Int) (e : Int) =
      input.take s ++ frag ++ input.drop e := by
  unfold insertAt
  rw [jsSlice_zero_coe input s (Nat.le_trans hse hel), jsSliceFrom_coe input e hel]

theorem insertAt_returns_splice_witness :
    (1 : Nat) ≤ 2 ∧ (2 : Nat) ≤ ([97, 98, 99] : List Nat).length ∧
    insertAt [97, 98, 99] [120, 121] ((1 : Nat) : Int) ((2 : Nat) : Int) =
      ([97, 98, 99] : List Nat).take 1 ++ [120, 121] ++
        ([97, 98, 99] : List Nat).drop 2 :=
  ⟨by decide, by decide,
    insertAt_returns_splice [97, 98, 99] [120, 121] 1 2 (by decide) (by decide)⟩

/-- C2: with an empty selection at caret `c`, `0 < c ≤ length T`,
`deleteOneGrapheme` returns the codepoint decomposition of `T[0:c]` with its
last codepoint removed, reassembled and concatenated with `T[c:]`; the
cursor is the UTF-16 code-unit length of the reassembled left portion; and
the new left portion has exactly one codepoint fewer than `T[0:c]`. -/
theorem deleteOneGrapheme_caret_deletes_one_codepoint (T : List Nat) (c : Nat)
    (h0 : 0 < c) (hl : c ≤ T.length) :
    (deleteOneGrapheme T (c : Int) (c : Int)).nextText =
        (codePointUnits (T.take c)).dropLast.flatten ++ T.drop c ∧
    (deleteOneGrapheme T (c : Int) (c : Int)).nextCursor =
        ((codePointUnits (T.take c)).dropLast.flatten.length : Int) ∧
    (codePointUnits ((codePointUnits (T.take c)).dropLast.flatten)).length + 1 =
        (codePointUnits (T.take c)).length := by
  rw [deleteOneGrapheme_of_pos T c h0 hl]
  refine ⟨rfl, rfl, ?_⟩
  rw [codePointUnits_dropLast_flatten, List.length_dropLast]
  have htake : T.take c ≠ [] := by
    simp only [ne_eq, List.take_eq_nil_iff, not_or]
    exact ⟨by omega, by intro h; rw [h] at hl; simp at hl; omega⟩
  have := codePointUnits_ne_nil (T.take c) htake
  have : 0 < (codePointUnits (T.take c)).length := List.length_pos.mpr this
  omega

theorem deleteOneGrapheme_caret_deletes_one_codepoint_witness :
    0 < (3 : Nat) ∧ (3 : Nat) ≤ ([0xD83D, 0xDE00, 97] : List Nat).length ∧
    ((deleteOneGrapheme [0xD83D, 0xDE00, 97] ((3 : Nat) : Int)
          ((3 : Nat) : Int)).nextText =
        (codePointUnits (([0xD83D, 0xDE00, 97] : List Nat).take 3)).dropLast.flatten
          ++ ([0xD83D, 0xDE00, 97] : List Nat).drop 3 ∧
      (deleteOneGrapheme [0xD83D, 0xDE00, 97] ((3 : Nat) : Int)
          ((3 : Nat) : Int)).nextCursor =
        (((codePointUnits (([0xD83D, 0xDE00, 97] : List Nat).take 3)).dropLast.flatten.length : Nat) : Int) ∧
      (codePointUnits ((codePointUnits (([0xD83D, 0xDE00, 97] : List Nat).take 3)).dropLast.flatten)).length + 1 =
        (codePointUnits (([0xD83D, 0xDE00, 97] : List Nat).take 3)).length) :=
  ⟨by decide, by decide,
    deleteOneGrapheme_caret_deletes_one_codepoint [0xD83D, 0xDE00, 97] 3
      (by decide) (by decide)⟩

/-- C3: with a nonempty selection `[s, e)` inside the buffer,
`deleteOneGrapheme` removes exactly that slice and sets the cursor to `s`. -/
theorem deleteOneGrapheme_removes_selected_range (T : List Nat) (s e : Nat)
    (hse : s < e) (hel : e ≤ T.length) :
    deleteOneGrapheme T (s : Int) (e : Int) =
      ⟨T.take s ++ T.drop e, (s : Int)⟩ :=
  deleteOneGrapheme_of_lt T s e hse hel

theorem deleteOneGrapheme_removes_selected_range_witness :
    (1 : Nat) < 3 ∧ (3 : Nat) ≤ ([97, 0xD83D, 0xDE00, 98] : List Nat).length ∧
    deleteOneGrapheme [97, 0xD83D, 0xDE00, 98] ((1 : Nat) : Int)
        ((3 : Nat) : Int) =
      ⟨([97, 0xD83D, 0xDE00, 98] : List Nat).take 1 ++
          ([97, 0xD83D, 0xDE00, 98] : List Nat).drop 3, ((1 : Nat) : Int)⟩ :=
  ⟨by decide, by decide,
    deleteOneGrapheme_removes_selected_range [97, 0xD83D, 0xDE00, 98] 1 3
      (by decide) (by decide)⟩

/-- C4: deletion with an empty selection at the start of the buffer is a
no-op: the text is unchanged and the cursor stays at 0. -/
theorem deleteOneGrapheme_noop_at_start (T : List Nat) :
    deleteOneGrapheme T 0 0 = ⟨T, 0⟩ :=
  deleteOneGrapheme_zero T

/-! ### The filter at the level of single code units

The blacklist of `filterNonEmoji` (ASCII digits and letters, Hangul
syllables and Jamo) contains only codepoints below `0xD7A4`, so it never
matches a surrogate code unit (`0xD800`–`0xDFFF`) nor the value of a
combined surrogate pair (`≥ 0x10000`).  Consequently the codepoint-level
filter coincides with filtering the raw code units. -/

theorem keep_of_surrogate (c : Nat) (h1 : 0xD800 ≤ c) (h2 : c ≤ 0xDFFF) :
    (!(isAsciiLetterOrDigit c || isHangul c)) = true := by
  simp [isAsciiLetterOrDigit, isHangul]
  omega

theorem keep_of_big (v : Nat) (h : 0x10000 ≤ v) :
    (!(isAsciiLetterOrDigit v || isHangul v)) = true := by
  simp [isAsciiLetterOrDigit, isHangul]
  omega

theorem filterNonEmoji_eq_filter (s : List Nat) :
    filterNonEmoji s =
      s.filter fun c => !(isAsciiLetterOrDigit c || isHangul c) := by
  induction s using codePointUnits.induct with
  | case1 => rfl
  | case2 c =>
    show ((codePointUnits [c]).filter _).flatten = _
    rw [codePointUnits]
    show (List.filter _ [[c]]).flatten = _
    rw [List.filter, List.filter]
    cases hk : (!(isAsciiLetterOrDigit (codePointVal [c]) ||
        isHangul (codePointVal [c]))) with
    | true =>
      rw [codePointVal] at hk
      simp [List.filter, hk]
    | false =>
      rw [codePointVal] at hk
      simp [List.filter, hk]
  | case3 c c2 rest h ih =>
    have hc : 0xD800 ≤ c ∧ c ≤ 0xDBFF ∧ 0xDC00 ≤ c2 ∧ c2 ≤ 0xDFFF := by
      simp [isHighSurrogate, isLowSurrogate] at h
      omega
    unfold filterNonEmoji at ih ⊢
    rw [codePointUnits, if_pos h]
    have h1 : (!(isAsciiLetterOrDigit (codePointVal [c, c2]) ||
        isHangul (codePointVal [c, c2]))) = true := by
      rw [codePointVal, if_pos h]
      exact keep_of_big _ (by omega)
    simp only [List.filter_cons, h1,
      keep_of_surrogate c hc.1 (by omega : c ≤ 0xDFFF),
      keep_of_surrogate c2 (by omega : 0xD800 ≤ c2) hc.2.2.2,
      if_true, List.flatten_cons, ih]
    rfl
  | case4 c c2 rest h ih =>
    unfold filterNonEmoji at ih ⊢
    rw [codePointUnits, if_neg (by simpa using h)]
    have hv : codePointVal [c] = c := rfl
    simp only [List.filter_cons, hv]
    cases hk : (!(isAsciiLetterOrDigit c || isHangul c)) with
    | true =>
      simp only [hk, if_true, List.flatten_cons, ih, List.singleton_append]
      congr 1
      exact List.filter_cons
    | false =>
      simp only [hk, Bool.false_eq_true, if_false, ih]
      exact List.filter_cons

/-- C5: `filterNonEmoji` splits its input into codepoints and keeps, in
order, exactly those whose value is not an ASCII digit `0`–`9`, not an
ASCII letter `A`–`Z`/`a`–`z`, not a Hangul syllable `U+AC00`–`U+D7A3` and
not Hangul Jamo `U+1100`–`U+11FF`.  It is total by construction. -/
theorem filterNonEmoji_keeps_exactly_non_blacklisted (T : List Nat) :
    filterNonEmoji T =
      ((codePointUnits T).filter fun ch =>
        decide (¬(48 ≤ codePointVal ch ∧ codePointVal ch ≤ 57 ∨
          65 ≤ codePointVal ch ∧ codePointVal ch ≤ 90 ∨
          97 ≤ codePointVal ch ∧ codePointVal ch ≤ 122 ∨
          0xAC00 ≤ codePointVal ch ∧ codePointVal ch ≤ 0xD7A3 ∨
          0x1100 ≤ codePointVal ch ∧ codePointVal ch ≤ 0x11FF))).flatten := by
  unfold filterNonEmoji
  congr 1
  apply List.filter_congr
  intro ch _
  rw [Bool.eq_iff_iff]
  simp [isAsciiLetterOrDigit, isHangul]
  omega

/-- C6: `filterNonEmoji` is idempotent. -/
theorem filterNonEmoji_idempotent (T : List Nat) :
    filterNonEmoji (filterNonEmoji T) = filterNonEmoji T := by
  rw [filterNonEmoji_eq_filter, filterNonEmoji_eq_filter T,
    List.filter_filter]
  apply List.filter_congr
  intro c _
  rw [Bool.and_self]

/-- C7 counterexample: on `T = "ab😀cd"` (code units
`[97, 98, 0xD83D, 0xDE00, 99, 100]`) with selection `(2,2)` the inserted
text is `"ab🔥😀cd"`, but the claim's caret clause fails for both possible
readings of "the single unit semantics used consistently": the caret is
not `2 +` the UTF-16 length of `"🔥"` (so UTF-16 is not the unit of the
insertion path), while the deletion path returns cursor `2` on a
one-codepoint result text (so codepoints are not the unit of the deletion
path either): no single unit is used consistently. -/
theorem insert_caret_unit_counterexample :
    insertAt [97, 98, 0xD83D, 0xDE00, 99, 100] [0xD83D, 0xDD25] 2 2 =
      [97, 98, 0xD83D, 0xDD25, 0xD83D, 0xDE00, 99, 100] ∧
    handleInsertCursor 2 [0xD83D, 0xDD25] ≠
      2 + (([0xD83D, 0xDD25] : List Nat).length : Int) ∧
    (deleteOneGrapheme [0xD83D, 0xDE00, 97] 3 3).nextCursor = 2 ∧
    (codePointUnits (deleteOneGrapheme [0xD83D, 0xDE00, 97] 3 3).nextText).length
      = 1 := by
  decide

/-- C7 amended: `insertAt "ab😀cd" "🔥" 2 2 = "ab🔥😀cd"`, and the caret
computed by the insertion path is `3 = 2 +` the codepoint count of `"🔥"`
(not `2 +` its UTF-16 code-unit length `2`); the implementation counts the
fragment in codepoints on insertion even though selection offsets and the
deletion cursor are UTF-16 code-unit based. -/
theorem insert_fire_scenario :
    insertAt [97, 98, 0xD83D, 0xDE00, 99, 100] [0xD83D, 0xDD25] 2 2 =
      [97, 98, 0xD83D, 0xDD25, 0xD83D, 0xDE00, 99, 100] ∧
    handleInsertCursor 2 [0xD83D, 0xDD25] =
      2 + ((codePointUnits [0xD83D, 0xDD25]).length : Int) ∧
    handleInsertCursor 2 [0xD83D, 0xDD25] = 3 := by
  decide

/-- C8: starting from a valid selection `s ≤ e ≤ length T`, the cursor
returned by `deleteOneGrapheme` and the caret computed by the insertion
path both lie within `[0, length newText]` of the resulting text. -/
theorem edit_cursor_in_bounds (T frag : List Nat) (s e : Nat)
    (hse : s ≤ e) (hel : e ≤ T.length) :
    (0 ≤ (deleteOneGrapheme T (s : Int) (e : Int)).nextCursor ∧
      (deleteOneGrapheme T (s : Int) (e : Int)).nextCursor ≤
        ((deleteOneGrapheme T (s : Int) (e : Int)).nextText.length : Int)) ∧
    (0 ≤ handleInsertCursor (s : Int) frag ∧
      handleInsertCursor (s : Int) frag ≤
        ((insertAt T frag (s : Int) (e : Int)).length : Int)) := by
  have hsl : s ≤ T.length := Nat.le_trans hse hel
  constructor
  · rcases Nat.lt_or_ge s e with hlt | hge
    · rw [deleteOneGrapheme_of_lt T s e hlt hel]
      refine ⟨Int.natCast_nonneg s, ?_⟩
      simp only [List.length_append, List.length_take, List.length_drop]
      push_cast
      omega
    · have he : s = e := Nat.le_antisymm hse hge
      subst he
      rcases Nat.eq_zero_or_pos s with rfl | h0
      · rw [show ((0 : Nat) : Int) = 0 from rfl, deleteOneGrapheme_zero]
        exact ⟨le_refl 0, Int.natCast_nonneg T.length⟩
      · rw [deleteOneGrapheme_of_pos T s h0 hsl]
        refine ⟨Int.natCast_nonneg _, ?_⟩
        simp only [List.length_append]
        push_cast
        omega
  · constructor
    · unfold handleInsertCursor
      have := Int.natCast_nonneg s
      have := Int.natCast_nonneg (codePointUnits frag).length
      omega
    · rw [insertAt_eq_splice T frag s e hsl hel]
      unfold handleInsertCursor
      have hcp := codePointUnits_length_le frag
      simp only [List.length_append, List.length_take, List.length_drop]
      push_cast
      omega

theorem edit_cursor_in_bounds_witness :
    (1 : Nat) ≤ 2 ∧ (2 : Nat) ≤ ([97, 0xD83D, 0xDE00, 98] : List Nat).length ∧
    ((0 ≤ (deleteOneGrapheme [97, 0xD83D, 0xDE00, 98] ((1 : Nat) : Int)
          ((2 : Nat) : Int)).nextCursor ∧
      (deleteOneGrapheme [97, 0xD83D, 0xDE00, 98] ((1 : Nat) : Int)
          ((2 : Nat) : Int)).nextCursor ≤
        ((deleteOneGrapheme [97, 0xD83D, 0xDE00, 98] ((1 : Nat) : Int)
          ((2 : Nat) : Int)).nextText.length : Int)) ∧
    (0 ≤ handleInsertCursor ((1 : Nat) : Int) [0xD83D, 0xDD25] ∧
      handleInsertCursor ((1 : Nat) : Int) [0xD83D, 0xDD25] ≤
        ((insertAt [97, 0xD83D, 0xDE00, 98] [0xD83D, 0xDD25] ((1 : Nat) : Int)
          ((2 : Nat) : Int)).length : Int))) :=
  ⟨by decide, by decide,
    edit_cursor_in_bounds [97, 0xD83D, 0xDE00, 98] [0xD83D, 0xDD25] 1 2
      (by decide) (by decide)⟩

/-- C9 counterexample: the editing functions do not clamp out-of-range
offsets.  For the negative offset `-1` on `"ab"`, JavaScript `slice`
interprets the index relative to the end of the string, so
`insertAt "ab" "x" (-1) (-1) = "axb"` differs from the result on the
clamped offsets `max 0 (min (-1) 2) = 0`, which is `"xab"`; moreover
`deleteOneGrapheme "ab" 7 9` returns cursor `7`, outside the bounds of the
returned text. -/
theorem insertAt_clamp_counterexample :
    (0 : Int) = max 0 (min (-1 : Int) (([97, 98] : List Nat).length : Int)) ∧
    insertAt [97, 98] [120] (-1) (-1) ≠ insertAt [97, 98] [120] 0 0 ∧
    (deleteOneGrapheme [97, 98] 7 9).nextCursor = 7 ∧
    ((deleteOneGrapheme [97, 98] 7 9).nextText.length : Int) < 7 := by
  decide

/-- C9 amended: `insertAt` and `deleteOneGrapheme` are total over all
integer offsets (they are plain functions with no failure path), and for
non-negative offsets `insertAt` clamps offsets above the text length down
to the length; negative offsets are interpreted relative to the end of the
string by the underlying slice semantics rather than clamped to `0`, and
`deleteOneGrapheme` can return an out-of-bounds cursor for an out-of-range
selection. -/
theorem insertAt_clamps_nonneg_offsets (input frag : List Nat) (s e : Int)
    (hs : 0 ≤ s) (he : 0 ≤ e) :
    insertAt input frag s e =
      insertAt input frag (min s (input.length : Int))
        (min e (input.length : Int)) := by
  unfold insertAt jsSlice jsSliceFrom
  rw [jsIdx_min input.length s hs, jsIdx_min input.length e he]

theorem insertAt_clamps_nonneg_offsets_witness :
    (0 : Int) ≤ 5 ∧ (0 : Int) ≤ 9 ∧
    insertAt [97, 98] [120] 5 9 =
      insertAt [97, 98] [120] (min (5 : Int) (([97, 98] : List Nat).length : Int))
        (min (9 : Int) (([97, 98] : List Nat).length : Int)) :=
  ⟨by decide, by decide,
    insertAt_clamps_nonneg_offsets [97, 98] [120] 5 9 (by decide) (by decide)⟩

/-- C10: the insertion path advances the caret by the codepoint count of
the fragment (`Array.from(emoji).length`), which is strictly smaller than
`s +` the fragment's UTF-16 length whenever the fragment contains an
astral-plane codepoint, while the deletion path returns the caret as a
UTF-16 code-unit length (`units.join("").length`): the two paths measure
the cursor in different units. -/
theorem insert_codepoint_delete_codeunit_mismatch (s c : Nat)
    (T frag : List Nat)
    (hfrag : (codePointUnits frag).length < frag.length)
    (h0 : 0 < c) (hl : c ≤ T.length) :
    handleInsertCursor (s : Int) frag =
        (s : Int) + ((codePointUnits frag).length : Int) ∧
    handleInsertCursor (s : Int) frag < (s : Int) + (frag.length : Int) ∧
    (deleteOneGrapheme T (c : Int) (c : Int)).nextCursor =
        ((codePointUnits (T.take c)).dropLast.flatten.length : Int) := by
  refine ⟨rfl, ?_, ?_⟩
  · unfold handleInsertCursor
    omega
  · rw [deleteOneGrapheme_of_pos T c h0 hl]

theorem insert_codepoint_delete_codeunit_mismatch_witness :
    (codePointUnits [0xD83D, 0xDD25]).length <
        ([0xD83D, 0xDD25] : List Nat).length ∧
    0 < (3 : Nat) ∧ (3 : Nat) ≤ ([0xD83D, 0xDE00, 97] : List Nat).length ∧
    (handleInsertCursor ((2 : Nat) : Int) [0xD83D, 0xDD25] =
        ((2 : Nat) : Int) + ((codePointUnits [0xD83D, 0xDD25]).length : Int) ∧
      handleInsertCursor ((2 : Nat) : Int) [0xD83D, 0xDD25] <
        ((2 : Nat) : Int) + (([0xD83D, 0xDD25] : List Nat).length : Int) ∧
      (deleteOneGrapheme [0xD83D, 0xDE00, 97] ((3 : Nat) : Int)
          ((3 : Nat) : Int)).nextCursor =
        ((codePointUnits (([0xD83D, 0xDE00, 97] : List Nat).take 3)).dropLast.flatten.length : Int)) :=
  ⟨by decide, by decide, by decide,
    insert_codepoint_delete_codeunit_mismatch 2 3 [0xD83D, 0xDE00, 97]
      [0xD83D, 0xDD25] (by decide) (by decide) (by decide)⟩

end OnlyMoji
